import Mathlib

/-!
Verification of the Fair9 native voice-dictation pipeline
(`fairnine_flutter/native/src/api.rs`).

Modelling conventions (shallow embedding):
* Rust `String`/`&str` values are modelled as `List Char`; all the slice
  points taken by the code fall on character boundaries, so byte indices
  and character indices agree where the code slices.
* `f32` audio samples are modelled as exact rationals (`ℚ`); the one
  function that takes a square root (`calculate_rms`) returns a real.
* The opaque whisper engine (context creation, `full`, segment collection)
  is modelled as a function parameter returning `Option` of the
  concatenated segment text: `none` means some step of the chain failed.
* Global mutable state (the snippet store, the sample buffer, the model
  slot) is passed explicitly; disk persistence (`save_snippets`) and the
  HTTP client are outside the modelled state.
-/

set_option maxRecDepth 8192

namespace Fair9

/-! ### Basic string machinery (Rust `str` methods over `List Char`) -/

/-- Rust `str::contains(pat)`: does `pat` occur as a contiguous substring? -/
def containsSub (pat : List Char) : List Char → Bool
  | [] => pat.isEmpty
  | c :: cs => pat.isPrefixOf (c :: cs) || containsSub pat cs

/-- Worker for `replaceAll`: while `skip > 0` the scanner is inside an
already-replaced occurrence and drops characters; at `skip = 0` it looks
for the pattern at the current position. -/
def replaceAllGo (pat rep : List Char) : List Char → Nat → List Char
  | [], _ => []
  | _ :: cs, skip + 1 => replaceAllGo pat rep cs skip
  | c :: cs, 0 =>
    if pat.isEmpty then c :: cs
    else if pat.isPrefixOf (c :: cs) then rep ++ replaceAllGo pat rep cs (pat.length - 1)
    else c :: replaceAllGo pat rep cs 0

/-- Rust `str::replace(pat, rep)`: replace every non-overlapping occurrence
of `pat`, scanning left to right.  The embedded code never calls it with an
empty pattern; for an empty pattern this returns the string unchanged. -/
def replaceAll (pat rep s : List Char) : List Char :=
  replaceAllGo pat rep s 0

/-- Rust `str::find(pat)`: index of the first occurrence of `pat`. -/
def findSub (pat : List Char) : List Char → Option Nat
  | [] => if pat.isEmpty then some 0 else none
  | c :: cs =>
    if pat.isPrefixOf (c :: cs) then some 0
    else (findSub pat cs).map (· + 1)

/-- Rust `str::rfind(ch)`: index of the last occurrence of the character. -/
def rfindChar (ch : Char) (s : List Char) : Option Nat :=
  (findSub [ch] s.reverse).map (fun k => s.length - 1 - k)

/-- Rust `str::trim_start()` (whitespace from the front). -/
def trimStartL (s : List Char) : List Char :=
  s.dropWhile Char.isWhitespace

/-- Rust `str::trim()` (whitespace from both ends). -/
def trimL (s : List Char) : List Char :=
  ((s.dropWhile Char.isWhitespace).reverse.dropWhile Char.isWhitespace).reverse

/-- Rust `str::to_lowercase()`, modelled characterwise. -/
def toLowerL (s : List Char) : List Char :=
  s.map Char.toLower

/-- Worker for `splitWhitespace`: `acc` is the word currently being read. -/
def splitWsGo : List Char → List Char → List (List Char)
  | [], acc => if acc.isEmpty then [] else [acc]
  | c :: cs, acc =>
    if c.isWhitespace then
      if acc.isEmpty then splitWsGo cs [] else acc :: splitWsGo cs []
    else splitWsGo cs (acc ++ [c])

/-- Rust `str::split_whitespace()`: maximal whitespace-free words, in order. -/
def splitWhitespace (s : List Char) : List (List Char) :=
  splitWsGo s []

/-- Rust `Vec::join(" ")` on the collected words. -/
def joinSpace : List (List Char) → List Char
  | [] => []
  | [w] => w
  | w :: ws => w ++ ' ' :: joinSpace ws

/-! ### `clean_filler_words` (api.rs lines 84-100) -/

/-- The fixed filler table, in source order. -/
def fillers : List (List Char) :=
  [" um ".toList, " uh ".toList, " hmm ".toList, " uhh ".toList, " umm ".toList,
   " like ".toList, " you know ".toList, " I mean ".toList,
   " sort of ".toList, " kind of ".toList,
   " basically ".toList, " actually ".toList,
   " um,".toList, " uh,".toList, " hmm,".toList]

/-- The `while result.contains(filler) { result = result.replace(filler, " ") }`
loop.  Each iteration that fires replaces at least one occurrence of a
pattern of length ≥ 4 by a single space, so the string shrinks by at least
three characters per iteration; a fuel of `length + 1` therefore always
reaches the loop's fixed point. -/
def removeLoop : Nat → List Char → List Char → List Char
  | 0, _, s => s
  | fuel + 1, f, s =>
    if containsSub f s then removeLoop fuel f (replaceAll f [' '] s) else s

/-- `clean_filler_words`: pad with one space on each side, drain every filler
phrase in table order, then collapse whitespace and trim by splitting on
whitespace and re-joining with single spaces. -/
def clean_filler_words (text : List Char) : List Char :=
  let padded := ' ' :: (text ++ [' '])
  let result := fillers.foldl (fun r f => removeLoop (r.length + 1) f r) padded
  joinSpace (splitWhitespace result)

/-! ### Voice snippet library (api.rs lines 15-268) -/

/-- `VoiceSnippet`: trigger phrase → expanded content. -/
structure VoiceSnippet where
  trigger : List Char
  content : List Char
deriving DecidableEq, Repr

/-- `match_snippet` (lines 198-208): normalize the text (trim, lowercase),
then return the content of the first stored snippet whose lowercased
trigger equals the normalized text or is a suffix of it. -/
def matchSnippetGo (normalized : List Char) : List VoiceSnippet → Option (List Char)
  | [] => none
  | s :: rest =>
    if normalized == toLowerL s.trigger || (toLowerL s.trigger).isSuffixOf normalized
    then some s.content
    else matchSnippetGo normalized rest

/-- `match_snippet`, with the global `SNIPPETS` store passed explicitly. -/
def match_snippet (store : List VoiceSnippet) (text : List Char) : Option (List Char) :=
  matchSnippetGo (toLowerL (trimL text)) store

/-- `apply_snippet_expansion` (lines 263-268): snippet content on a match,
otherwise the input text unchanged. -/
def apply_snippet_expansion (store : List VoiceSnippet) (text : List Char) : List Char :=
  match match_snippet store text with
  | some content => content
  | none => text

/-- Error message of `add_snippet` for a duplicate trigger. -/
def addDupMsg (trigger : List Char) : List Char :=
  "Snippet with trigger \x27".toList ++ trigger ++ "\x27 already exists".toList

/-- Success message of `add_snippet`. -/
def addOkMsg (trigger : List Char) : List Char :=
  "Added snippet \x27".toList ++ trigger ++ "\x27".toList

/-- `add_snippet` (lines 211-222), acting on an explicit store.  The first
component is the returned `Result`, the second the store after the call
(the call to `save_snippets` only touches the disk, not the in-memory
store, and is not modelled). -/
def add_snippet (store : List VoiceSnippet) (trigger content : List Char) :
    Except (List Char) (List Char) × List VoiceSnippet :=
  if store.any (fun s => toLowerL s.trigger == toLowerL trigger) then
    (Except.error (addDupMsg trigger), store)
  else
    (Except.ok (addOkMsg trigger), store ++ [⟨trigger, content⟩])

/-- Error message of `remove_snippet` when no trigger matches. -/
def removeMissingMsg (trigger : List Char) : List Char :=
  "No snippet with trigger \x27".toList ++ trigger ++ "\x27".toList

/-- Success message of `remove_snippet`. -/
def removeOkMsg (trigger : List Char) : List Char :=
  "Removed snippet \x27".toList ++ trigger ++ "\x27".toList

/-- `remove_snippet` (lines 225-236): `retain` every snippet whose
lowercased trigger differs from the lowercased argument, then fail if the
length did not change. -/
def remove_snippet (store : List VoiceSnippet) (trigger : List Char) :
    Except (List Char) (List Char) × List VoiceSnippet :=
  let newStore := store.filter (fun s => !(toLowerL s.trigger == toLowerL trigger))
  if newStore.length = store.length then
    (Except.error (removeMissingMsg trigger), newStore)
  else
    (Except.ok (removeOkMsg trigger), newStore)

/-! ### Snippet JSON serialization and hand-rolled parsing -/

/-- Escaping applied by `get_snippets` to a trigger: `"` → `\"`. -/
def escQ (s : List Char) : List Char :=
  replaceAll ['"'] ['\\', '"'] s

/-- Escaping applied by `get_snippets` to a content: `"` → `\"`, then
newline → `\n`. -/
def escQN (s : List Char) : List Char :=
  replaceAll ['\n'] ['\\', 'n'] (replaceAll ['"'] ['\\', '"'] s)

/-- One serialized array entry of `get_snippets` (lines 241-246). -/
def entryJson (s : VoiceSnippet) : List Char :=
  "\x7b\"trigger\":\"".toList ++ escQ s.trigger
    ++ "\",\"content\":\"".toList ++ escQN s.content ++ "\"\x7d".toList

/-- The part of a serialized entry strictly between its two braces. -/
def entryInner (s : VoiceSnippet) : List Char :=
  "\"trigger\":\"".toList ++ escQ s.trigger
    ++ "\",\"content\":\"".toList ++ escQN s.content ++ ['"']

/-- `Vec::join(",")` on the serialized entries. -/
def joinComma : List (List Char) → List Char
  | [] => []
  | [e] => e
  | e :: es => e ++ ',' :: joinComma es

/-- `get_snippets` (lines 239-248): the full JSON document. -/
def get_snippets (store : List VoiceSnippet) : List Char :=
  "\x7b\"snippets\":[".toList ++ joinComma (store.map entryJson) ++ "]\x7d".toList

/-- The closing-quote scan of `extract_json_string` (lines 182-193): number
of characters of the value before the first unescaped `"`.  The flag is the
`escaped` state. -/
def scanValueLen : List Char → Bool → Nat
  | [], _ => 0
  | _ :: cs, true => 1 + scanValueLen cs false
  | c :: cs, false =>
    if c = '\\' then 1 + scanValueLen cs true
    else if c = '"' then 0
    else 1 + scanValueLen cs false

/-- The unescaping of `extract_json_string` (line 194):
`replace("\\n", "\n").replace("\\\"", "\"")`. -/
def unescapeJson (s : List Char) : List Char :=
  replaceAll ['\\', '"'] ['"'] (replaceAll ['\\', 'n'] ['\n'] s)

/-- `extract_json_string` (lines 168-195): minimal extraction of a string
value by key. -/
def extract_json_string (json : List Char) (key : List Char) : Option (List Char) :=
  let search := '"' :: key ++ ['"', ':']
  let altSearch := '"' :: key ++ ['"', ' ', ':']
  match (findSub search json).orElse (fun _ => findSub altSearch json) with
  | none => none
  | some pos =>
    let afterKey := json.drop pos
    match findSub [':'] afterKey with
    | none => none
    | some firstColon =>
      let afterColon := trimStartL (afterKey.drop (firstColon + 1))
      match afterColon with
      | '"' :: valueStr => some (unescapeJson (valueStr.take (scanValueLen valueStr false)))
      | _ => none

/-- The brace-depth scan of `load_snippets` (lines 137-158): spans
`(start, end)` of the top-level `\x7b...\x7d` objects, by character index. -/
def braceScan : List Char → Nat → Int → Option Nat → List (Nat × Nat)
  | [], _, _, _ => []
  | c :: cs, i, depth, objStart =>
    if c = '\x7b' then
      braceScan cs (i + 1) (depth + 1) (if depth = 0 then some i else objStart)
    else if c = '\x7d' then
      if depth - 1 = 0 then
        match objStart with
        | some s => (s, i) :: braceScan cs (i + 1) (depth - 1) objStart
        | none => braceScan cs (i + 1) (depth - 1) objStart
      else braceScan cs (i + 1) (depth - 1) objStart
    else braceScan cs (i + 1) depth objStart

/-- One object of the snippets array: keep it only if both fields extract. -/
def parseObjSnippet (obj : List Char) : Option VoiceSnippet :=
  match extract_json_string obj "trigger".toList, extract_json_string obj "content".toList with
  | some t, some c => some ⟨t, c⟩
  | _, _ => none

/-- The parsing logic of `load_snippets` (lines 128-165), applied to the
file content: locate the array between the first `[` and the last `]`,
split it into top-level objects by brace depth, and extract both fields of
each object. -/
def load_snippets_parse (content : List Char) : List VoiceSnippet :=
  match findSub ['['] content, rfindChar ']' content with
  | some arrStart, some arrEnd =>
    let arrStr := (content.drop (arrStart + 1)).take (arrEnd - (arrStart + 1))
    (braceScan arrStr 0 0 none).filterMap
      (fun p => parseObjSnippet ((arrStr.drop p.1).take (p.2 + 1 - p.1)))
  | _, _ => []

/-! ### Audio constants, RMS, and the capture callbacks -/

/-- `SAMPLE_RATE` (line 26). -/
def SAMPLE_RATE : Nat := 16000

/-- `calculate_rms` (lines 77-81): 0 for an empty slice, otherwise the
square root of the mean of the squares.  `f32` arithmetic is modelled
exactly over the rationals, with a real-valued square root. -/
noncomputable def calculate_rms (data : List ℚ) : ℝ :=
  if data.isEmpty then 0
  else Real.sqrt (((data.map (fun x => x * x)).sum / (data.length : ℚ) : ℚ) : ℝ)

/-- The two static filter scalars `LAST_IN` / `LAST_OUT` of the whisper-mode
DSP stage (lines 404-405). -/
structure HpState where
  last_in : ℚ
  last_out : ℚ
deriving DecidableEq, Repr

/-- The high-pass coefficient `alpha = 0.95` (line 406). -/
def hpAlpha : ℚ := 95 / 100

/-- The +15 dB gain multiplier `5.62` (line 415). -/
def hpGain : ℚ := 562 / 100

/-- The whisper-mode per-chunk DSP loop (lines 408-417): for each sample,
`out = alpha * (LAST_OUT + sample - LAST_IN)`, update the two state
scalars, and push `out * 5.62`.  Returns the final state and the list of
pushed samples. -/
def whisperChunk : HpState → List ℚ → HpState × List ℚ
  | st, [] => (st, [])
  | st, sample :: rest =>
    let out := hpAlpha * (st.last_out + sample - st.last_in)
    let next := whisperChunk ⟨sample, out⟩ rest
    (next.1, out * hpGain :: next.2)

/-- The capture callback of `create_transcription_stream` (lines 397-422):
when listening, append either the DSP-processed chunk (whisper mode) or the
raw chunk; otherwise leave buffer and filter state alone. -/
def stream_callback (listening whisper : Bool) (st : HpState) (buffer data : List ℚ) :
    HpState × List ℚ :=
  if listening then
    if whisper then
      let processed := whisperChunk st data
      (processed.1, buffer ++ processed.2)
    else (st, buffer ++ data)
  else (st, buffer)

/-- The capture callback of `start_batch_recording` (lines 562-567): when
listening, `extend_from_slice(data)` with no conditioning whatsoever. -/
def batch_callback (listening : Bool) (buffer data : List ℚ) : List ℚ :=
  if listening then buffer ++ data else buffer

/-! ### The streaming inference poll cycle and batch finalization -/

/-- The inference block of one poll cycle of the streaming loop
(lines 463-508).  The whisper engine chain (`create_state`, `full`,
`full_n_segments`, segment collection) is abstracted as
`infer : List ℚ → Option (List Char)`; `none` means some step failed.
Returns `(samples inference was invoked on, emitted text, new
last_processed_len)`.  The `is_speaking` branch at lines 498-502 adds the
same value on both sides and is dropped from the result.  The VAD block
(lines 444-461) only writes `is_speaking` / `silence_start`, which this
block does not otherwise read. -/
def poll_inference (store : List VoiceSnippet) (snapshot : List ℚ) (lastLen : Nat)
    (modelLoaded : Bool) (infer : List ℚ → Option (List Char)) :
    Option (List ℚ) × Option (List Char) × Nat :=
  if snapshot.length > lastLen + SAMPLE_RATE / 2 then
    if modelLoaded then
      match infer snapshot with
      | some text =>
        (some snapshot, some (apply_snippet_expansion store (clean_filler_words text)),
         snapshot.length)
      | none => (some snapshot, none, snapshot.length)
    else (none, none, snapshot.length)
  else (none, none, lastLen)

/-- Error message of `stop_and_transcribe` (line 625). -/
def batchErrMsg : List Char :=
  "Batch transcription failed — model not loaded".toList

/-- `stop_and_transcribe` (lines 586-626), after the listening flag is
cleared and the drain sleep has elapsed: on an empty drained buffer return
`Ok("")` before even looking at the model; with a loaded model and a
successful inference, trim the concatenated segments, strip fillers, and
expand snippets; on a missing model or any failed step of the engine
chain, fall through to the single error return. -/
def stop_and_transcribe (store : List VoiceSnippet) (buffer : List ℚ)
    (modelLoaded : Bool) (infer : List ℚ → Option (List Char)) :
    Except (List Char) (List Char) :=
  if buffer.isEmpty then Except.ok []
  else if modelLoaded then
    match infer buffer with
    | some text =>
      Except.ok (apply_snippet_expansion store (clean_filler_words (trimL text)))
    | none => Except.error batchErrMsg
  else Except.error batchErrMsg

/-! ### AI command mode (`process_ai_command_with_config`, lines 295-361) -/

/-- `AI_SYSTEM_PROMPT` (lines 277-279). -/
def aiSystemPrompt : List Char :=
  ("You are a text editor. Execute the user\x27s command on the following text. \nReturn ONLY the modified text with no explanation, no markdown formatting, no quotes around it. \nJust the raw edited text, nothing else.").toList

/-- Validation error for an empty selected text (line 302). -/
def noTextMsg : List Char := "No text selected — highlight text first".toList

/-- Validation error for an empty voice command (line 305). -/
def noCommandMsg : List Char := "No voice command captured".toList

/-- JSON body escaping for the Ollama request (lines 315-325):
`\` → `\\`, `"` → `\"`, newline → `\n`. -/
def escBody (s : List Char) : List Char :=
  replaceAll ['\n'] ['\\', 'n']
    (replaceAll ['"'] ['\\', '"'] (replaceAll ['\\'] ['\\', '\\'] s))

/-- Model-name escaping (lines 323-325): `\` → `\\`, `"` → `\"`. -/
def escModelName (s : List Char) : List Char :=
  replaceAll ['"'] ['\\', '"'] (replaceAll ['\\'] ['\\', '\\'] s)

/-- The outcome of `process_ai_command_with_config` up to the HTTP
boundary: either a validation error returned before any request is built,
or the `ureq::post` call actually issued, with its url and body. -/
inductive AiOutcome where
  | validationError (msg : List Char)
  | httpRequest (url body : List Char)
deriving DecidableEq, Repr

/-- `process_ai_command_with_config` (lines 295-335), modelled up to the
point where the HTTP request is issued: both validation checks happen
before the prompt and body are built and before any network activity. -/
def process_ai_command_with_config (selected voice url model : List Char) : AiOutcome :=
  if (trimL selected).isEmpty then AiOutcome.validationError noTextMsg
  else if (trimL voice).isEmpty then AiOutcome.validationError noCommandMsg
  else
    let prompt := "Command: ".toList ++ trimL voice
      ++ "\n\nText to edit:\n".toList ++ selected
    let body := "\x7b\"model\":\"".toList ++ escModelName model
      ++ "\",\"prompt\":\"".toList ++ escBody prompt
      ++ "\",\"system\":\"".toList ++ escBody aiSystemPrompt
      ++ "\",\"stream\":false\x7d".toList
    AiOutcome.httpRequest url body

/-! ### Helper lemmas -/

theorem matchSnippetGo_eq_find (n : List Char) (store : List VoiceSnippet) :
    matchSnippetGo n store =
      (store.find? (fun s =>
        n == toLowerL s.trigger || (toLowerL s.trigger).isSuffixOf n)).map
          VoiceSnippet.content := by
  induction store with
  | nil => simp [matchSnippetGo]
  | cons s rest ih =>
    by_cases h : (n == toLowerL s.trigger || (toLowerL s.trigger).isSuffixOf n) = true
    · simp [matchSnippetGo, h, List.find?]
    · simp only [matchSnippetGo, h, List.find?]
      simp only [Bool.not_eq_true] at h
      simp [h, ih]

theorem removeLoop_id (fuel : Nat) (f s : List Char) (h : containsSub f s = false) :
    removeLoop fuel f s = s := by
  cases fuel <;> simp [removeLoop, h]

theorem foldl_removeLoop_id (fs : List (List Char)) (s : List Char)
    (h : ∀ f ∈ fs, containsSub f s = false) :
    fs.foldl (fun r f => removeLoop (r.length + 1) f r) s = s := by
  induction fs with
  | nil => rfl
  | cons f rest ih =>
    simp only [List.foldl_cons]
    rw [removeLoop_id _ _ _ (h f (by simp))]
    exact ih (fun g hg => h g (by simp [hg]))

theorem space_isWhitespace : (' ').isWhitespace = true := by decide

theorem ne_nil_of_isEmpty_false {α : Type} {l : List α} (h : l.isEmpty = false) :
    l ≠ [] := by
  cases l <;> simp_all

theorem splitWsGo_append_space (l : List Char) :
    ∀ acc, splitWsGo (l ++ [' ']) acc = splitWsGo l acc := by
  induction l with
  | nil =>
    intro acc
    by_cases h : acc.isEmpty <;>
      simp [splitWsGo, space_isWhitespace, h]
  | cons c cs ih =>
    intro acc
    by_cases hc : c.isWhitespace <;> by_cases ha : acc.isEmpty <;>
      simp [splitWsGo, hc, ha, ih]

theorem splitWsGo_word (w : List Char) (hw : ∀ c ∈ w, c.isWhitespace = false) :
    ∀ rest acc, splitWsGo (w ++ rest) acc = splitWsGo rest (acc ++ w) := by
  induction w with
  | nil => simp
  | cons c cs ih =>
    intro rest acc
    have hc : c.isWhitespace = false := hw c (by simp)
    show splitWsGo (c :: (cs ++ rest)) acc = _
    rw [splitWsGo]
    simp only [hc, Bool.false_eq_true, if_false]
    rw [ih (fun d hd => hw d (by simp [hd])) rest (acc ++ [c])]
    simp

theorem splitWsGo_wf (l : List Char) :
    ∀ acc, (∀ c ∈ acc, c.isWhitespace = false) →
      ∀ w ∈ splitWsGo l acc, w ≠ [] ∧ ∀ c ∈ w, c.isWhitespace = false := by
  induction l with
  | nil =>
    intro acc hacc w hw
    by_cases h : acc.isEmpty
    · simp [splitWsGo, h] at hw
    · simp only [splitWsGo, h, Bool.false_eq_true, if_false, List.mem_singleton] at hw
      subst hw
      exact ⟨ne_nil_of_isEmpty_false (by simpa using h), hacc⟩
  | cons c cs ih =>
    intro acc hacc w hw
    by_cases hc : c.isWhitespace
    · by_cases ha : acc.isEmpty
      · simp only [splitWsGo, hc, if_true, ha] at hw
        exact ih [] (by simp) w hw
      · simp only [splitWsGo, hc, if_true, ha, Bool.false_eq_true, if_false,
          List.mem_cons] at hw
        rcases hw with rfl | hw
        · exact ⟨ne_nil_of_isEmpty_false (by simpa using ha), hacc⟩
        · exact ih [] (by simp) w hw
    · simp only [splitWsGo, hc, Bool.false_eq_true, if_false] at hw
      refine ih (acc ++ [c]) ?_ w hw
      intro d hd
      rcases List.mem_append.mp hd with hd | hd
      · exact hacc d hd
      · simpa [List.mem_singleton.mp hd] using hc

theorem splitWhitespace_joinSpace (ws : List (List Char))
    (h : ∀ w ∈ ws, w ≠ [] ∧ ∀ c ∈ w, c.isWhitespace = false) :
    splitWhitespace (joinSpace ws) = ws := by
  induction ws with
  | nil => rfl
  | cons w rest ih =>
    cases rest with
    | nil =>
      have hw := h w (by simp)
      show splitWsGo (joinSpace [w]) [] = [w]
      have hjw : joinSpace [w] = w ++ [] := by simp [joinSpace]
      rw [hjw, splitWsGo_word w hw.2 [] []]
      simp [splitWsGo, List.isEmpty_iff, hw.1]
    | cons w2 rest2 =>
      have hw := h w (by simp)
      show splitWsGo (joinSpace (w :: w2 :: rest2)) [] = w :: w2 :: rest2
      have hj : joinSpace (w :: w2 :: rest2) = w ++ ' ' :: joinSpace (w2 :: rest2) := by
        simp [joinSpace]
      rw [hj, splitWsGo_word w hw.2 (' ' :: joinSpace (w2 :: rest2)) []]
      simp only [List.nil_append]
      rw [splitWsGo]
      simp only [space_isWhitespace, if_true, List.isEmpty_iff, hw.1, if_false]
      have := ih (fun v hv => h v (by simp [hv]))
      simpa [splitWhitespace] using congrArg (w :: ·) this

/-! ### Claim theorems -/

/-- C1: on the input `"sort kind of of"`, removing `" kind of "` manufactures
a fresh occurrence of `" sort of "`, a filler that the loop already finished
processing, so a second pass removes strictly more text: filler-word removal
is not idempotent, contradicting the stated property. -/
theorem C1_clean_not_idempotent :
    clean_filler_words ("sort kind of of".toList) = "sort of".toList ∧
    clean_filler_words ("sort of".toList) = [] ∧
    clean_filler_words (clean_filler_words ("sort kind of of".toList)) ≠
      clean_filler_words ("sort kind of of".toList) := by
  decide

/-- C2 (amended): `stop_and_transcribe` returns `Ok ""` whenever the drained
buffer is empty, regardless of the model; with a loaded model, a non-empty
buffer and a successful engine chain it returns the trimmed transcript run
through filler removal and snippet expansion; and it returns an error iff
the buffer is non-empty and either no model is loaded or some step of the
engine chain fails. -/
theorem C2_stop_and_transcribe_characterization (store : List VoiceSnippet)
    (buffer : List ℚ) (modelLoaded : Bool) (infer : List ℚ → Option (List Char)) :
    (buffer = [] → stop_and_transcribe store buffer modelLoaded infer = Except.ok []) ∧
    (∀ t, buffer ≠ [] → modelLoaded = true → infer buffer = some t →
      stop_and_transcribe store buffer modelLoaded infer =
        Except.ok (apply_snippet_expansion store (clean_filler_words (trimL t)))) ∧
    ((∃ e, stop_and_transcribe store buffer modelLoaded infer = Except.error e) ↔
      (buffer ≠ [] ∧ (modelLoaded = false ∨ infer buffer = none))) := by
  refine ⟨fun hb => by simp [stop_and_transcribe, hb], fun t hb hm hi => ?_, ?_⟩
  · simp [stop_and_transcribe, List.isEmpty_iff, hb, hm, hi]
  · cases buffer with
    | nil => simp [stop_and_transcribe]
    | cons a l =>
      cases modelLoaded with
      | false => simp [stop_and_transcribe]
      | true =>
        cases hi : infer (a :: l) with
        | none => simp [stop_and_transcribe, hi]
        | some t => simp [stop_and_transcribe, hi]

/-- C2 (counterexample): with a model loaded and a non-empty buffer, a
failing engine chain still yields an error, so "error iff no model is
loaded" is false as stated. -/
theorem C2_error_with_model_loaded :
    stop_and_transcribe [] [(1 : ℚ)] true (fun _ => none) = Except.error batchErrMsg := rfl

theorem C2_witness :
    stop_and_transcribe [] ([] : List ℚ) true (fun _ => none) = Except.ok [] ∧
    stop_and_transcribe [] [(1 : ℚ)] true (fun _ => some ("hi um there".toList)) =
      Except.ok (apply_snippet_expansion []
        (clean_filler_words (trimL ("hi um there".toList)))) :=
  ⟨(C2_stop_and_transcribe_characterization [] [] true _).1 rfl,
   (C2_stop_and_transcribe_characterization [] [(1 : ℚ)] true _).2.1
     ("hi um there".toList) (by simp) rfl rfl⟩

/-- C3: snippet expansion returns the content of the first stored snippet
(in insertion order, via `List.find?`) whose lowercased trigger equals the
trimmed lowercased input or is a suffix of it, replacing the whole output;
with no matching trigger the input passes through unchanged. -/
theorem C3_snippet_expansion_first_match (store : List VoiceSnippet) (text : List Char) :
    apply_snippet_expansion store text =
      match store.find? (fun s =>
          toLowerL (trimL text) == toLowerL s.trigger ||
          (toLowerL s.trigger).isSuffixOf (toLowerL (trimL text))) with
      | some s => s.content
      | none => text := by
  unfold apply_snippet_expansion match_snippet
  rw [matchSnippetGo_eq_find]
  cases store.find? (fun s =>
      toLowerL (trimL text) == toLowerL s.trigger ||
      (toLowerL s.trigger).isSuffixOf (toLowerL (trimL text))) <;> rfl

/-- C4: adding a case-insensitive duplicate trigger returns an error and
leaves the store untouched; removing a trigger that matches no stored
snippet (case-insensitively) returns an error and leaves the store
untouched. -/
theorem C4_add_remove_validation (store : List VoiceSnippet) (trigger content : List Char) :
    ((∃ s ∈ store, toLowerL s.trigger = toLowerL trigger) →
      add_snippet store trigger content = (Except.error (addDupMsg trigger), store)) ∧
    ((∀ s ∈ store, toLowerL s.trigger ≠ toLowerL trigger) →
      remove_snippet store trigger = (Except.error (removeMissingMsg trigger), store)) := by
  constructor
  · rintro ⟨s, hs, heq⟩
    have hany : store.any (fun s => toLowerL s.trigger == toLowerL trigger) = true :=
      List.any_eq_true.mpr ⟨s, hs, by simpa using heq⟩
    simp [add_snippet, hany]
  · intro hni
    have hfil : store.filter (fun s => !(toLowerL s.trigger == toLowerL trigger)) = store :=
      List.filter_eq_self.mpr (fun s hs => by simpa using hni s hs)
    simp [remove_snippet, hfil]

theorem C4_witness :
    add_snippet [⟨"Insert Bio".toList, "b".toList⟩] ("insert bio".toList) ("x".toList) =
      (Except.error (addDupMsg ("insert bio".toList)),
       [⟨"Insert Bio".toList, "b".toList⟩]) ∧
    remove_snippet [⟨"Insert Bio".toList, "b".toList⟩] ("nope".toList) =
      (Except.error (removeMissingMsg ("nope".toList)),
       [⟨"Insert Bio".toList, "b".toList⟩]) :=
  ⟨(C4_add_remove_validation _ _ ("x".toList)).1 (by decide),
   (C4_add_remove_validation _ ("nope".toList) []).2 (by decide)⟩

/-- C5 (amended): with whisper mode enabled, the streaming capture callback
appends exactly the chunk run through the one-pole high-pass filter
`out = 0.95 * (prev_out + sample - prev_in)` followed by the `5.62` gain,
threading the two state scalars so that processing one concatenated chunk
equals processing the pieces across successive invocations; the batch
recording callback appends raw samples with no conditioning. -/
theorem C5_whisper_dsp_characterization :
    (∀ (st : HpState) (buffer data : List ℚ),
        stream_callback true true st buffer data =
          ((whisperChunk st data).1, buffer ++ (whisperChunk st data).2)) ∧
    (∀ (st : HpState) (s : ℚ) (rest : List ℚ),
        (whisperChunk st (s :: rest)).2.head? =
          some (hpAlpha * (st.last_out + s - st.last_in) * hpGain)) ∧
    (∀ (st : HpState) (d1 d2 : List ℚ),
        whisperChunk st (d1 ++ d2) =
          ((whisperChunk (whisperChunk st d1).1 d2).1,
           (whisperChunk st d1).2 ++ (whisperChunk (whisperChunk st d1).1 d2).2)) ∧
    (∀ (buffer data : List ℚ), batch_callback true buffer data = buffer ++ data) := by
  refine ⟨fun st buffer data => by simp [stream_callback],
          fun st s rest => by simp [whisperChunk],
          fun st d1 d2 => ?_,
          fun buffer data => by simp [batch_callback]⟩
  induction d1 generalizing st with
  | nil => simp [whisperChunk]
  | cons a l ih => simp [whisperChunk, ih]

/-- C5 (counterexample): the batch recording path appends the raw sample
`1` even though, under whisper mode, the filtered and gain-boosted value
would be `0.95 * 5.62 = 5.339`; so the DSP stage does not hold on every
capture path that appends to the buffer. -/
theorem C5_batch_path_unfiltered :
    batch_callback true [] [(1 : ℚ)] = [(1 : ℚ)] ∧
    (stream_callback true true ⟨0, 0⟩ [] [(1 : ℚ)]).2 = [(5339 / 1000 : ℚ)] ∧
    (1 : ℚ) ≠ (5339 / 1000 : ℚ) := by
  refine ⟨rfl, ?_, by norm_num⟩
  show [hpAlpha * (0 + 1 - 0) * hpGain] = [(5339 / 1000 : ℚ)]
  norm_num [hpAlpha, hpGain]

/-- C6: in one poll cycle of the streaming loop, inference is invoked iff
the snapshot exceeds the processed length by more than `SAMPLE_RATE / 2`
samples and a model is loaded; any invocation runs on the entire snapshot;
and the processed length becomes the snapshot length exactly when the
growth threshold fires (in particular after every inference call). -/
theorem C6_poll_trigger_characterization (store : List VoiceSnippet) (snapshot : List ℚ)
    (lastLen : Nat) (modelLoaded : Bool) (infer : List ℚ → Option (List Char)) :
    ((poll_inference store snapshot lastLen modelLoaded infer).1 ≠ none ↔
      (lastLen + SAMPLE_RATE / 2 < snapshot.length ∧ modelLoaded = true)) ∧
    ((poll_inference store snapshot lastLen modelLoaded infer).1 = none ∨
      (poll_inference store snapshot lastLen modelLoaded infer).1 = some snapshot) ∧
    ((poll_inference store snapshot lastLen modelLoaded infer).2.2 =
      if lastLen + SAMPLE_RATE / 2 < snapshot.length then snapshot.length else lastLen) := by
  by_cases h : lastLen + SAMPLE_RATE / 2 < snapshot.length
  · cases modelLoaded with
    | false => simp [poll_inference, h]
    | true =>
      cases hi : infer snapshot with
      | none => simp [poll_inference, h, hi]
      | some t => simp [poll_inference, h, hi]
  · simp [poll_inference, h]

/-- C7: `process_ai_command_with_config` rejects an all-whitespace selected
text, and then an all-whitespace voice command, with two distinct
validation errors, in both cases before any HTTP request is issued. -/
theorem C7_command_validation (selected voice url model : List Char) :
    ((trimL selected).isEmpty = true →
      process_ai_command_with_config selected voice url model =
        AiOutcome.validationError noTextMsg) ∧
    ((trimL selected).isEmpty = false → (trimL voice).isEmpty = true →
      process_ai_command_with_config selected voice url model =
        AiOutcome.validationError noCommandMsg) ∧
    noTextMsg ≠ noCommandMsg ∧
    (∀ u b, (trimL selected).isEmpty = true ∨ (trimL voice).isEmpty = true →
      process_ai_command_with_config selected voice url model ≠
        AiOutcome.httpRequest u b) := by
  refine ⟨fun h1 => by simp [process_ai_command_with_config, h1],
          fun h1 h2 => by simp [process_ai_command_with_config, h1, h2],
          by decide, ?_⟩
  rintro u b (h | h)
  · simp [process_ai_command_with_config, h]
  · by_cases h1 : (trimL selected).isEmpty <;>
      simp [process_ai_command_with_config, h1, h]

theorem C7_witness :
    process_ai_command_with_config ("  ".toList) ("fix grammar".toList)
        ("u".toList) ("m".toList) = AiOutcome.validationError noTextMsg ∧
    process_ai_command_with_config ("Hello".toList) (" ".toList)
        ("u".toList) ("m".toList) = AiOutcome.validationError noCommandMsg :=
  ⟨(C7_command_validation ("  ".toList) ("fix grammar".toList) _ _).1 (by decide),
   (C7_command_validation ("Hello".toList) (" ".toList) _ _).2.1 (by decide) (by decide)⟩

/-- C9: the RMS of the empty slice is `0`, the RMS of any all-zero slice is
`0`, and the RMS of any non-empty all-one slice is exactly `1` (`f32`
arithmetic modelled exactly over the rationals). -/
theorem C9_rms_values :
    calculate_rms [] = 0 ∧
    (∀ n, calculate_rms (List.replicate n 0) = 0) ∧
    (∀ n, n ≠ 0 → calculate_rms (List.replicate n 1) = 1) := by
  refine ⟨by simp [calculate_rms], fun n => ?_, fun n hn => ?_⟩
  · cases n with
    | zero => simp [calculate_rms]
    | succ m =>
      simp [calculate_rms, List.map_replicate, List.isEmpty_iff]
  · cases n with
    | zero => exact absurd rfl hn
    | succ m =>
      have hne : ((m : ℚ) + 1) ≠ 0 := by positivity
      simp [calculate_rms, List.map_replicate, List.isEmpty_iff,
        List.sum_replicate, div_self hne]

theorem C9_witness :
    (3 : ℕ) ≠ 0 ∧ calculate_rms (List.replicate 3 1) = 1 :=
  ⟨by decide, C9_rms_values.2.2 3 (by decide)⟩

/-- C8 (amended): whenever no filler phrase occurs space-delimited in the
padded input, filler-word removal only normalizes whitespace: the list of
whitespace-delimited words is unchanged, so every word — in particular one
like "plumber" that merely embeds a filler as a substring — appears
unchanged in the output. -/
theorem C8_words_preserved (x : List Char)
    (h : ∀ f ∈ fillers, containsSub f (' ' :: (x ++ [' '])) = false) :
    splitWhitespace (clean_filler_words x) = splitWhitespace x ∧
    ∀ w ∈ splitWhitespace x, w ∈ splitWhitespace (clean_filler_words x) := by
  have hres : fillers.foldl (fun r f => removeLoop (r.length + 1) f r)
      (' ' :: (x ++ [' '])) = ' ' :: (x ++ [' ']) :=
    foldl_removeLoop_id _ _ h
  have hpad : splitWhitespace (' ' :: (x ++ [' '])) = splitWhitespace x := by
    show splitWsGo (' ' :: (x ++ [' '])) [] = splitWsGo x []
    rw [splitWsGo]
    simp only [space_isWhitespace, if_true, List.isEmpty_nil]
    exact splitWsGo_append_space x []
  have hclean : clean_filler_words x = joinSpace (splitWhitespace x) := by
    show joinSpace (splitWhitespace (List.foldl (fun r f => removeLoop (r.length + 1) f r)
      (' ' :: (x ++ [' '])) fillers)) = _
    rw [hres, hpad]
  have hr := splitWhitespace_joinSpace (splitWhitespace x)
    (fun w hw => splitWsGo_wf x [] (by simp) w hw)
  rw [hclean, hr]
  exact ⟨rfl, fun w hw => hw⟩

/-- C8 (counterexample): in the input `"sort of"`, the word `"sort"` is not
itself any (trimmed) entry of the filler table, yet it does not survive
`clean_filler_words`, because it participates in the occurrence of the
two-word filler `" sort of "`. -/
theorem C8_phrase_component_removed :
    "sort".toList ∈ splitWhitespace ("sort of".toList) ∧
    (∀ f ∈ fillers, "sort".toList ≠ trimL f) ∧
    "sort".toList ∉ splitWhitespace (clean_filler_words ("sort of".toList)) := by
  decide

theorem C8_witness :
    (∀ f ∈ fillers, containsSub f (' ' :: ("book a plumber".toList ++ [' '])) = false) ∧
    splitWhitespace (clean_filler_words ("book a plumber".toList)) =
      splitWhitespace ("book a plumber".toList) :=
  ⟨by decide, (C8_words_preserved ("book a plumber".toList) (by decide)).1⟩

/-! ### Serialization / parsing round-trip lemmas (for C10) -/

theorem isPrefixOf_cons_ne (a c : Char) (as X : List Char) (h : a ≠ c) :
    ((a :: as) : List Char).isPrefixOf (c :: X) = false := by
  simp [List.isPrefixOf, h]

theorem isPrefixOf_two (a b c d : Char) (X : List Char) :
    (([a, b] : List Char)).isPrefixOf (c :: d :: X) = (a == c && b == d) := by
  simp [List.isPrefixOf]

theorem isPrefixOf_self_append (l r : List Char) : l.isPrefixOf (l ++ r) = true := by
  induction l with
  | nil => cases r <;> rfl
  | cons c cs ih => simp [List.isPrefixOf, ih]

theorem replaceAll1_cons (p : Char) (rep : List Char) (c : Char) (s : List Char) :
    replaceAll [p] rep (c :: s) = (if c = p then rep else [c]) ++ replaceAll [p] rep s := by
  by_cases h : c = p
  · subst h
    have hpre : ([c] : List Char).isPrefixOf (c :: s) = true := by
      simp [List.isPrefixOf]
    show replaceAllGo [c] rep (c :: s) 0 = _
    simp only [replaceAllGo, List.isEmpty_cons, hpre, if_true, Bool.false_eq_true,
      if_false, if_pos rfl]
    rfl
  · have hpre : ([p] : List Char).isPrefixOf (c :: s) = false :=
      isPrefixOf_cons_ne p c [] s (Ne.symm h)
    show replaceAllGo [p] rep (c :: s) 0 = _
    simp only [replaceAllGo, List.isEmpty_cons, hpre, Bool.false_eq_true, if_false,
      if_neg h]
    rfl

theorem replaceAll2_match (a b : Char) (rep s : List Char) :
    replaceAll [a, b] rep (a :: b :: s) = rep ++ replaceAll [a, b] rep s := by
  have hpre : (([a, b] : List Char)).isPrefixOf (a :: b :: s) = true := by
    simp [List.isPrefixOf]
  show replaceAllGo [a, b] rep (a :: b :: s) 0 = _
  simp only [replaceAllGo, List.isEmpty_cons, hpre, if_true, Bool.false_eq_true, if_false]
  rfl

theorem replaceAll2_nomatch (a b : Char) (rep : List Char) (c : Char) (s : List Char)
    (hpre : (([a, b] : List Char)).isPrefixOf (c :: s) = false) :
    replaceAll [a, b] rep (c :: s) = c :: replaceAll [a, b] rep s := by
  show replaceAllGo [a, b] rep (c :: s) 0 = _
  simp only [replaceAllGo, List.isEmpty_cons, hpre, Bool.false_eq_true, if_false]
  rfl

theorem escQ_nil : escQ [] = [] := rfl

theorem escQ_cons (c : Char) (t : List Char) :
    escQ (c :: t) = (if c = '"' then ['\\', '"'] else [c]) ++ escQ t := by
  show replaceAll ['"'] ['\\', '"'] (c :: t) = _
  rw [replaceAll1_cons]
  by_cases h : c = '"' <;> simp [h, escQ]

theorem escQN_nil : escQN [] = [] := rfl

theorem escQN_cons (c : Char) (t : List Char) :
    escQN (c :: t) =
      (if c = '"' then ['\\', '"'] else if c = '\n' then ['\\', 'n'] else [c])
        ++ escQN t := by
  show replaceAll ['\n'] ['\\', 'n'] (escQ (c :: t)) = _
  rw [escQ_cons c t]
  by_cases h : c = '"'
  · subst h
    simp only [reduceIte, List.cons_append, List.nil_append]
    rw [replaceAll1_cons, replaceAll1_cons]
    simp [escQN, escQ]
  · by_cases hn : c = '\n'
    · subst hn
      simp only [if_neg h, reduceIte, List.cons_append, List.nil_append]
      rw [replaceAll1_cons]
      simp [escQN, escQ]
    · simp only [if_neg h, if_neg hn, List.cons_append, List.nil_append]
      rw [replaceAll1_cons]
      simp [escQN, escQ, hn]

theorem braceFree_escQ (t : List Char) :
    (∀ ch ∈ t, ch ≠ '\x7b' ∧ ch ≠ '\x7d') →
    ∀ ch ∈ escQ t, ch ≠ '\x7b' ∧ ch ≠ '\x7d' := by
  induction t with
  | nil =>
    intro _ ch hch
    simp [escQ_nil] at hch
  | cons c cs ih =>
    intro h ch hch
    rw [escQ_cons] at hch
    rcases List.mem_append.mp hch with hm | hm
    · by_cases h1 : c = '"'
      · simp [h1] at hm
        rcases hm with rfl | rfl <;> exact ⟨by decide, by decide⟩
      · simp [h1] at hm
        rw [hm]
        exact h c (by simp)
    · exact ih (fun d hd => h d (by simp [hd])) ch hm

theorem braceFree_escQN (t : List Char) :
    (∀ ch ∈ t, ch ≠ '\x7b' ∧ ch ≠ '\x7d') →
    ∀ ch ∈ escQN t, ch ≠ '\x7b' ∧ ch ≠ '\x7d' := by
  induction t with
  | nil =>
    intro _ ch hch
    simp [escQN_nil] at hch
  | cons c cs ih =>
    intro h ch hch
    rw [escQN_cons] at hch
    rcases List.mem_append.mp hch with hm | hm
    · by_cases h1 : c = '"'
      · simp [h1] at hm
        rcases hm with rfl | rfl <;> exact ⟨by decide, by decide⟩
      · by_cases h2 : c = '\n'
        · simp [h1, h2] at hm
          rcases hm with rfl | rfl <;> exact ⟨by decide, by decide⟩
        · simp [h1, h2] at hm
          rw [hm]
          exact h c (by simp)
    · exact ih (fun d hd => h d (by simp [hd])) ch hm

theorem scanValueLen_cons_bs (cs : List Char) :
    scanValueLen ('\\' :: cs) false = 1 + scanValueLen cs true := by
  simp [scanValueLen]

theorem scanValueLen_cons_esc (c : Char) (cs : List Char) :
    scanValueLen (c :: cs) true = 1 + scanValueLen cs false := rfl

theorem scanValueLen_cons_quote (cs : List Char) :
    scanValueLen ('"' :: cs) false = 0 := by
  simp [scanValueLen]

theorem scanValueLen_cons_plain (c : Char) (cs : List Char) (h1 : c ≠ '\\')
    (h2 : c ≠ '"') : scanValueLen (c :: cs) false = 1 + scanValueLen cs false := by
  simp [scanValueLen, h1, h2]

theorem scanValueLen_escQ (t : List Char) :
    (∀ ch ∈ t, ch ≠ '\\') → ∀ rest : List Char,
    scanValueLen (escQ t ++ '"' :: rest) false = (escQ t).length := by
  induction t with
  | nil =>
    intro _ rest
    simp [escQ_nil, scanValueLen_cons_quote]
  | cons c cs ih =>
    intro hb rest
    rw [escQ_cons]
    by_cases h : c = '"'
    · subst h
      simp only [reduceIte, List.cons_append, List.nil_append, List.append_assoc]
      rw [scanValueLen_cons_bs, scanValueLen_cons_esc,
        ih (fun d hd => hb d (by simp [hd])) rest]
      simp only [List.length_cons]
      omega
    · have hbs : c ≠ '\\' := hb c (by simp)
      simp only [if_neg h, List.cons_append, List.nil_append]
      rw [scanValueLen_cons_plain c _ hbs h, ih (fun d hd => hb d (by simp [hd])) rest]
      simp only [List.length_cons]
      omega

theorem scanValueLen_escQN (t : List Char) :
    (∀ ch ∈ t, ch ≠ '\\') → ∀ rest : List Char,
    scanValueLen (escQN t ++ '"' :: rest) false = (escQN t).length := by
  induction t with
  | nil =>
    intro _ rest
    simp [escQN_nil, scanValueLen_cons_quote]
  | cons c cs ih =>
    intro hb rest
    rw [escQN_cons]
    by_cases h : c = '"'
    · subst h
      simp only [reduceIte, List.cons_append, List.nil_append, List.append_assoc]
      rw [scanValueLen_cons_bs, scanValueLen_cons_esc,
        ih (fun d hd => hb d (by simp [hd])) rest]
      simp only [List.length_cons]
      omega
    · by_cases hn : c = '\n'
      · subst hn
        simp only [if_neg h, reduceIte, List.cons_append, List.nil_append,
          List.append_assoc]
        rw [scanValueLen_cons_bs, scanValueLen_cons_esc,
          ih (fun d hd => hb d (by simp [hd])) rest]
        simp only [List.length_cons]
        omega
      · have hbs : c ≠ '\\' := hb c (by simp)
        simp only [if_neg h, if_neg hn, List.cons_append, List.nil_append]
        rw [scanValueLen_cons_plain c _ hbs h,
          ih (fun d hd => hb d (by simp [hd])) rest]
        simp only [List.length_cons]
        omega

theorem unesc_n_escQ (t : List Char) :
    (∀ ch ∈ t, ch ≠ '\\') →
    replaceAll ['\\', 'n'] ['\n'] (escQ t) = escQ t := by
  induction t with
  | nil => intro _; rfl
  | cons c cs ih =>
    intro hb
    rw [escQ_cons]
    by_cases h : c = '"'
    · subst h
      simp only [reduceIte, List.cons_append, List.nil_append]
      have hp1 : (['\\', 'n'] : List Char).isPrefixOf ('\\' :: '"' :: escQ cs) = false := by
        rw [isPrefixOf_two]
        decide
      rw [replaceAll2_nomatch _ _ _ _ _ hp1]
      have hp2 : (['\\', 'n'] : List Char).isPrefixOf ('"' :: escQ cs) = false :=
        isPrefixOf_cons_ne '\\' '"' ['n'] _ (by decide)
      rw [replaceAll2_nomatch _ _ _ _ _ hp2]
      rw [ih (fun d hd => hb d (by simp [hd]))]
    · have hbs : c ≠ '\\' := hb c (by simp)
      simp only [if_neg h, List.cons_append, List.nil_append]
      rw [replaceAll2_nomatch _ _ _ _ _
        (isPrefixOf_cons_ne '\\' c ['n'] _ (Ne.symm hbs))]
      rw [ih (fun d hd => hb d (by simp [hd]))]

theorem unesc_n_escQN (t : List Char) :
    (∀ ch ∈ t, ch ≠ '\\') →
    replaceAll ['\\', 'n'] ['\n'] (escQN t) = escQ t := by
  induction t with
  | nil => intro _; rfl
  | cons c cs ih =>
    intro hb
    rw [escQN_cons]
    by_cases h : c = '"'
    · subst h
      simp only [reduceIte, List.cons_append, List.nil_append]
      have hp1 : (['\\', 'n'] : List Char).isPrefixOf ('\\' :: '"' :: escQN cs) = false := by
        rw [isPrefixOf_two]
        decide
      rw [replaceAll2_nomatch _ _ _ _ _ hp1]
      have hp2 : (['\\', 'n'] : List Char).isPrefixOf ('"' :: escQN cs) = false :=
        isPrefixOf_cons_ne '\\' '"' ['n'] _ (by decide)
      rw [replaceAll2_nomatch _ _ _ _ _ hp2]
      rw [ih (fun d hd => hb d (by simp [hd])), escQ_cons]
      simp
    · by_cases hn : c = '\n'
      · subst hn
        simp only [if_neg h, reduceIte, List.cons_append, List.nil_append]
        rw [replaceAll2_match]
        rw [ih (fun d hd => hb d (by simp [hd])), escQ_cons]
        simp [h]
      · have hbs : c ≠ '\\' := hb c (by simp)
        simp only [if_neg h, if_neg hn, List.cons_append, List.nil_append]
        rw [replaceAll2_nomatch _ _ _ _ _
          (isPrefixOf_cons_ne '\\' c ['n'] _ (Ne.symm hbs))]
        rw [ih (fun d hd => hb d (by simp [hd])), escQ_cons]
        simp [h]

theorem unesc_q_escQ (t : List Char) :
    (∀ ch ∈ t, ch ≠ '\\') →
    replaceAll ['\\', '"'] ['"'] (escQ t) = t := by
  induction t with
  | nil => intro _; rfl
  | cons c cs ih =>
    intro hb
    rw [escQ_cons]
    by_cases h : c = '"'
    · subst h
      simp only [reduceIte, List.cons_append, List.nil_append]
      rw [replaceAll2_match, ih (fun d hd => hb d (by simp [hd]))]
      rfl
    · have hbs : c ≠ '\\' := hb c (by simp)
      simp only [if_neg h, List.cons_append, List.nil_append]
      rw [replaceAll2_nomatch _ _ _ _ _
        (isPrefixOf_cons_ne '\\' c ['"'] _ (Ne.symm hbs))]
      rw [ih (fun d hd => hb d (by simp [hd]))]

theorem unescapeJson_escQ (t : List Char) (hb : ∀ ch ∈ t, ch ≠ '\\') :
    unescapeJson (escQ t) = t := by
  show replaceAll ['\\', '"'] ['"'] (replaceAll ['\\', 'n'] ['\n'] (escQ t)) = t
  rw [unesc_n_escQ t hb, unesc_q_escQ t hb]

theorem unescapeJson_escQN (t : List Char) (hb : ∀ ch ∈ t, ch ≠ '\\') :
    unescapeJson (escQN t) = t := by
  show replaceAll ['\\', '"'] ['"'] (replaceAll ['\\', 'n'] ['\n'] (escQN t)) = t
  rw [unesc_n_escQN t hb, unesc_q_escQ t hb]

theorem isPrefixOf_cons_cons (a c : Char) (p X : List Char) :
    (((a :: p) : List Char)).isPrefixOf (c :: X) = (a == c && p.isPrefixOf X) := by
  simp [List.isPrefixOf]

theorem isPrefixOf_second_ne (a b c d : Char) (p X : List Char) (h : b ≠ d) :
    (((a :: b :: p) : List Char)).isPrefixOf (c :: d :: X) = false := by
  simp [List.isPrefixOf, h]

theorem findSub_cons_not (pat : List Char) (c : Char) (cs : List Char)
    (h : pat.isPrefixOf (c :: cs) = false) :
    findSub pat (c :: cs) = (findSub pat cs).map (· + 1) := by
  simp [findSub, h]

theorem findSub_cons_yes (pat : List Char) (c : Char) (cs : List Char)
    (h : pat.isPrefixOf (c :: cs) = true) :
    findSub pat (c :: cs) = some 0 := by
  simp [findSub, h]

theorem drop_len_append (l r : List Char) : (l ++ r).drop l.length = r := by
  induction l with
  | nil => rfl
  | cons c cs ih => simpa using ih

theorem take_len_append (l r : List Char) : (l ++ r).take l.length = l := by
  induction l with
  | nil => rfl
  | cons c cs ih => simpa using ih

/-- No occurrence of the pattern `w ++ "\":"` (with `w` quote- and
backslash-free, as the tail of a key search pattern) can start at the head
of the quote-escaped trigger region followed by the `","content":"`
separator: every `"` inside the escaped region is preceded by `\`. -/
theorem no_key_tail_in_escaped (t : List Char) :
    (∀ ch ∈ t, ch ≠ '\\') → ∀ (w : List Char), (∀ ch ∈ w, ch ≠ '"' ∧ ch ≠ '\\') →
    ∀ z : List Char,
    ((w ++ ['"', ':']).isPrefixOf
      (escQ t ++ ('"' :: ',' :: '"' :: 'c' :: 'o' :: 'n' :: 't' :: 'e' :: 'n' :: 't'
        :: '"' :: ':' :: '"' :: z))) = false := by
  induction t with
  | nil =>
    intro _ w hw z
    rw [escQ_nil, List.nil_append]
    cases w with
    | nil => exact isPrefixOf_second_ne '"' ':' '"' ',' _ _ (by decide)
    | cons a w' =>
      exact isPrefixOf_cons_ne a '"' _ _ (hw a (by simp)).1
  | cons c cs ih =>
    intro hb w hw z
    rw [escQ_cons]
    by_cases h : c = '"'
    · subst h
      simp only [reduceIte, List.cons_append, List.nil_append, List.append_assoc]
      cases w with
      | nil => exact isPrefixOf_cons_ne '"' '\\' _ _ (by decide)
      | cons a w' =>
        exact isPrefixOf_cons_ne a '\\' _ _ (hw a (by simp)).2
    · simp only [if_neg h, List.cons_append, List.nil_append, List.append_assoc]
      cases w with
      | nil => exact isPrefixOf_cons_ne '"' c _ _ (Ne.symm h)
      | cons a w' =>
        by_cases ha : a = c
        · subst ha
          rw [List.cons_append, isPrefixOf_cons_cons]
          rw [ih (fun d hd => hb d (by simp [hd])) w' (fun d hd => hw d (by simp [hd])) z]
          simp
        · exact isPrefixOf_cons_ne a c _ _ ha

/-- The first occurrence of the `"content":` key pattern after the escaped
trigger region sits two characters into the `","content":"` separator. -/
theorem findSub_Kc_escaped (t : List Char) :
    (∀ ch ∈ t, ch ≠ '\\') → ∀ z : List Char,
    findSub ['"', 'c', 'o', 'n', 't', 'e', 'n', 't', '"', ':']
      (escQ t ++ ('"' :: ',' :: '"' :: 'c' :: 'o' :: 'n' :: 't' :: 'e' :: 'n' :: 't'
        :: '"' :: ':' :: '"' :: z)) = some ((escQ t).length + 2) := by
  induction t with
  | nil =>
    intro _ z
    rw [escQ_nil, List.nil_append]
    rw [findSub_cons_not _ _ _ (isPrefixOf_second_ne '"' 'c' '"' ',' _ _ (by decide))]
    rw [findSub_cons_not _ _ _ (isPrefixOf_cons_ne '"' ',' _ _ (by decide))]
    rw [findSub_cons_yes _ _ _ (by simp [List.isPrefixOf])]
    simp [escQ_nil]
  | cons c cs ih =>
    intro hb z
    rw [escQ_cons]
    by_cases h : c = '"'
    · subst h
      simp only [reduceIte, List.cons_append, List.nil_append, List.append_assoc]
      rw [findSub_cons_not _ _ _ (isPrefixOf_cons_ne '"' '\\' _ _ (by decide))]
      have hkb := no_key_tail_in_escaped cs (fun d hd => hb d (by simp [hd]))
        ('c' :: 'o' :: 'n' :: 't' :: 'e' :: 'n' :: 't' :: [])
        (by intro d hd; fin_cases hd <;> exact ⟨by decide, by decide⟩) z
      rw [findSub_cons_not _ _ _ (by
        rw [isPrefixOf_cons_cons]
        simp only [List.cons_append, List.nil_append] at hkb
        rw [hkb]
        simp)]
      rw [ih (fun d hd => hb d (by simp [hd])) z]
      simp only [Option.map_some', escQ_cons, reduceIte, List.length_append,
        List.length_cons, List.length_nil, Option.some.injEq]
    · have hbs : c ≠ '\\' := hb c (by simp)
      simp only [if_neg h, List.cons_append, List.nil_append, List.append_assoc]
      rw [findSub_cons_not _ _ _ (isPrefixOf_cons_ne '"' c _ _ (Ne.symm h))]
      rw [ih (fun d hd => hb d (by simp [hd])) z]
      simp only [Option.map_some', escQ_cons, if_neg h, List.length_append,
        List.length_cons, List.length_nil, Option.some.injEq]

theorem entryJson_chain (t c : List Char) :
    entryJson ⟨t, c⟩ =
      '\x7b' :: '"' :: 't' :: 'r' :: 'i' :: 'g' :: 'g' :: 'e' :: 'r' :: '"' :: ':' :: '"' ::
        (escQ t ++ ('"' :: ',' :: '"' :: 'c' :: 'o' :: 'n' :: 't' :: 'e' :: 'n' :: 't' ::
          '"' :: ':' :: '"' :: (escQN c ++ ['"', '\x7d']))) := by
  show ("\x7b\"trigger\":\"").toList ++ escQ t ++ ("\",\"content\":\"").toList
      ++ escQN c ++ ("\"\x7d").toList = _
  have l1 : ("\x7b\"trigger\":\"").toList
      = ['\x7b', '"', 't', 'r', 'i', 'g', 'g', 'e', 'r', '"', ':', '"'] := rfl
  have l2 : ("\",\"content\":\"").toList
      = ['"', ',', '"', 'c', 'o', 'n', 't', 'e', 'n', 't', '"', ':', '"'] := rfl
  have l3 : ("\"\x7d").toList = ['"', '\x7d'] := rfl
  rw [l1, l2, l3]
  simp [List.append_assoc]

theorem extract_json_string_spec (json key : List Char) (pos : Nat)
    (v rest afterKey : List Char) (k : Nat)
    (h1 : findSub ('"' :: key ++ ['"', ':']) json = some pos)
    (h2 : json.drop pos = afterKey)
    (h3 : findSub [':'] afterKey = some k)
    (h4 : trimStartL (afterKey.drop (k + 1)) = '"' :: (v ++ '"' :: rest))
    (h5 : scanValueLen (v ++ '"' :: rest) false = v.length) :
    extract_json_string json key = some (unescapeJson v) := by
  simp only [extract_json_string, h1, Option.orElse, h2, h3, h4, h5, take_len_append]

theorem extract_trigger_entry (t c : List Char) (hbt : ∀ ch ∈ t, ch ≠ '\\') :
    extract_json_string (entryJson ⟨t, c⟩) ("trigger".toList) = some t := by
  rw [entryJson_chain]
  have h := extract_json_string_spec
    ('\x7b' :: '"' :: 't' :: 'r' :: 'i' :: 'g' :: 'g' :: 'e' :: 'r' :: '"' :: ':' :: '"' ::
      (escQ t ++ ('"' :: ',' :: '"' :: 'c' :: 'o' :: 'n' :: 't' :: 'e' :: 'n' :: 't' ::
        '"' :: ':' :: '"' :: (escQN c ++ ['"', '\x7d']))))
    ("trigger".toList) 1 (escQ t)
    (',' :: '"' :: 'c' :: 'o' :: 'n' :: 't' :: 'e' :: 'n' :: 't' ::
      '"' :: ':' :: '"' :: (escQN c ++ ['"', '\x7d']))
    ('"' :: 't' :: 'r' :: 'i' :: 'g' :: 'g' :: 'e' :: 'r' :: '"' :: ':' :: '"' ::
      (escQ t ++ ('"' :: ',' :: '"' :: 'c' :: 'o' :: 'n' :: 't' :: 'e' :: 'n' :: 't' ::
        '"' :: ':' :: '"' :: (escQN c ++ ['"', '\x7d']))))
    9 ?_ rfl ?_ ?_ ?_
  · rw [h, unescapeJson_escQ t hbt]
  · show findSub ['"', 't', 'r', 'i', 'g', 'g', 'e', 'r', '"', ':'] _ = some 1
    rw [findSub_cons_not _ _ _ (isPrefixOf_cons_ne '"' '\x7b' _ _ (by decide))]
    rw [findSub_cons_yes _ _ _ (by simp [List.isPrefixOf])]
    rfl
  · rw [findSub_cons_not _ _ _ (isPrefixOf_cons_ne ':' '"' _ _ (by decide))]
    rw [findSub_cons_not _ _ _ (isPrefixOf_cons_ne ':' 't' _ _ (by decide))]
    rw [findSub_cons_not _ _ _ (isPrefixOf_cons_ne ':' 'r' _ _ (by decide))]
    rw [findSub_cons_not _ _ _ (isPrefixOf_cons_ne ':' 'i' _ _ (by decide))]
    rw [findSub_cons_not _ _ _ (isPrefixOf_cons_ne ':' 'g' _ _ (by decide))]
    rw [findSub_cons_not _ _ _ (isPrefixOf_cons_ne ':' 'g' _ _ (by decide))]
    rw [findSub_cons_not _ _ _ (isPrefixOf_cons_ne ':' 'e' _ _ (by decide))]
    rw [findSub_cons_not _ _ _ (isPrefixOf_cons_ne ':' 'r' _ _ (by decide))]
    rw [findSub_cons_not _ _ _ (isPrefixOf_cons_ne ':' '"' _ _ (by decide))]
    rw [findSub_cons_yes _ _ _ (by simp [List.isPrefixOf])]
    rfl
  · rfl
  · exact scanValueLen_escQ t hbt _

theorem extract_content_entry (t c : List Char) (hbt : ∀ ch ∈ t, ch ≠ '\\')
    (hbc : ∀ ch ∈ c, ch ≠ '\\') :
    extract_json_string (entryJson ⟨t, c⟩) ("content".toList) = some c := by
  rw [entryJson_chain]
  have h := extract_json_string_spec
    ('\x7b' :: '"' :: 't' :: 'r' :: 'i' :: 'g' :: 'g' :: 'e' :: 'r' :: '"' :: ':' :: '"' ::
      (escQ t ++ ('"' :: ',' :: '"' :: 'c' :: 'o' :: 'n' :: 't' :: 'e' :: 'n' :: 't' ::
        '"' :: ':' :: '"' :: (escQN c ++ ['"', '\x7d']))))
    ("content".toList) ((escQ t).length + 14) (escQN c) ['\x7d']
    ('"' :: 'c' :: 'o' :: 'n' :: 't' :: 'e' :: 'n' :: 't' :: '"' :: ':' :: '"' ::
      (escQN c ++ ['"', '\x7d']))
    9 ?_ ?_ ?_ ?_ ?_
  · rw [h, unescapeJson_escQN c hbc]
  · show findSub ['"', 'c', 'o', 'n', 't', 'e', 'n', 't', '"', ':'] _ = _
    rw [findSub_cons_not _ _ _ (isPrefixOf_cons_ne '"' '\x7b' _ _ (by decide))]
    rw [findSub_cons_not _ _ _ (isPrefixOf_second_ne '"' 'c' '"' 't' _ _ (by decide))]
    rw [findSub_cons_not _ _ _ (isPrefixOf_cons_ne '"' 't' _ _ (by decide))]
    rw [findSub_cons_not _ _ _ (isPrefixOf_cons_ne '"' 'r' _ _ (by decide))]
    rw [findSub_cons_not _ _ _ (isPrefixOf_cons_ne '"' 'i' _ _ (by decide))]
    rw [findSub_cons_not _ _ _ (isPrefixOf_cons_ne '"' 'g' _ _ (by decide))]
    rw [findSub_cons_not _ _ _ (isPrefixOf_cons_ne '"' 'g' _ _ (by decide))]
    rw [findSub_cons_not _ _ _ (isPrefixOf_cons_ne '"' 'e' _ _ (by decide))]
    rw [findSub_cons_not _ _ _ (isPrefixOf_cons_ne '"' 'r' _ _ (by decide))]
    rw [findSub_cons_not _ _ _ (isPrefixOf_second_ne '"' 'c' '"' ':' _ _ (by decide))]
    rw [findSub_cons_not _ _ _ (isPrefixOf_cons_ne '"' ':' _ _ (by decide))]
    rw [findSub_cons_not _ _ _ (by
      rw [isPrefixOf_cons_cons]
      have hkb := no_key_tail_in_escaped t hbt
        ('c' :: 'o' :: 'n' :: 't' :: 'e' :: 'n' :: 't' :: [])
        (by intro d hd; fin_cases hd <;> exact ⟨by decide, by decide⟩)
        (escQN c ++ ['"', '\x7d'])
      simp only [List.cons_append, List.nil_append] at hkb
      rw [hkb]
      simp)]
    rw [findSub_Kc_escaped t hbt (escQN c ++ ['"', '\x7d'])]
    simp only [Option.map_some', Option.some.injEq]
  · have hsplit :
        ('\x7b' :: '"' :: 't' :: 'r' :: 'i' :: 'g' :: 'g' :: 'e' :: 'r' :: '"' :: ':' :: '"' ::
          (escQ t ++ ('"' :: ',' :: '"' :: 'c' :: 'o' :: 'n' :: 't' :: 'e' :: 'n' :: 't' ::
            '"' :: ':' :: '"' :: (escQN c ++ ['"', '\x7d'])))) =
        (('\x7b' :: '"' :: 't' :: 'r' :: 'i' :: 'g' :: 'g' :: 'e' :: 'r' :: '"' :: ':' :: '"' ::
          (escQ t ++ ['"', ','])) ++
          ('"' :: 'c' :: 'o' :: 'n' :: 't' :: 'e' :: 'n' :: 't' :: '"' :: ':' :: '"' ::
            (escQN c ++ ['"', '\x7d']))) := by
      simp [List.append_assoc]
    have hlen :
        ('\x7b' :: '"' :: 't' :: 'r' :: 'i' :: 'g' :: 'g' :: 'e' :: 'r' :: '"' :: ':' :: '"' ::
          (escQ t ++ ['"', ','])).length = (escQ t).length + 14 := by
      simp only [List.length_cons, List.length_append, List.length_nil]
    rw [hsplit, ← hlen, drop_len_append]
  · rw [findSub_cons_not _ _ _ (isPrefixOf_cons_ne ':' '"' _ _ (by decide))]
    rw [findSub_cons_not _ _ _ (isPrefixOf_cons_ne ':' 'c' _ _ (by decide))]
    rw [findSub_cons_not _ _ _ (isPrefixOf_cons_ne ':' 'o' _ _ (by decide))]
    rw [findSub_cons_not _ _ _ (isPrefixOf_cons_ne ':' 'n' _ _ (by decide))]
    rw [findSub_cons_not _ _ _ (isPrefixOf_cons_ne ':' 't' _ _ (by decide))]
    rw [findSub_cons_not _ _ _ (isPrefixOf_cons_ne ':' 'e' _ _ (by decide))]
    rw [findSub_cons_not _ _ _ (isPrefixOf_cons_ne ':' 'n' _ _ (by decide))]
    rw [findSub_cons_not _ _ _ (isPrefixOf_cons_ne ':' 't' _ _ (by decide))]
    rw [findSub_cons_not _ _ _ (isPrefixOf_cons_ne ':' '"' _ _ (by decide))]
    rw [findSub_cons_yes _ _ _ (by simp [List.isPrefixOf])]
    rfl
  · rfl
  · exact scanValueLen_escQN c hbc _

theorem parseObjSnippet_entry (s : VoiceSnippet)
    (hbt : ∀ ch ∈ s.trigger, ch ≠ '\\') (hbc : ∀ ch ∈ s.content, ch ≠ '\\') :
    parseObjSnippet (entryJson s) = some s := by
  obtain ⟨t, c⟩ := s
  simp only [parseObjSnippet, extract_trigger_entry t c hbt,
    extract_content_entry t c hbt hbc]

theorem entry_wrap (s : VoiceSnippet) (X : List Char) :
    entryJson s ++ X = '\x7b' :: (entryInner s ++ ('\x7d' :: X)) := by
  obtain ⟨t, c⟩ := s
  have l1 : ("\"trigger\":\"").toList
      = ['"', 't', 'r', 'i', 'g', 'g', 'e', 'r', '"', ':', '"'] := rfl
  have l2 : ("\",\"content\":\"").toList
      = ['"', ',', '"', 'c', 'o', 'n', 't', 'e', 'n', 't', '"', ':', '"'] := rfl
  rw [entryJson_chain]
  show _ = '\x7b' :: ((("\"trigger\":\"").toList ++ escQ t ++ ("\",\"content\":\"").toList
    ++ escQN c ++ ['"']) ++ ('\x7d' :: X))
  rw [l1, l2]
  simp [List.append_assoc]

theorem entryJson_eq_wrap (s : VoiceSnippet) :
    entryJson s = '\x7b' :: (entryInner s ++ ['\x7d']) := by
  have h := entry_wrap s []
  simpa using h

theorem entryInner_length (s : VoiceSnippet) :
    (entryJson s).length = (entryInner s).length + 2 := by
  rw [entryJson_eq_wrap]
  simp

theorem entryInner_braceFree (s : VoiceSnippet)
    (ht : ∀ ch ∈ s.trigger, ch ≠ '\x7b' ∧ ch ≠ '\x7d')
    (hc : ∀ ch ∈ s.content, ch ≠ '\x7b' ∧ ch ≠ '\x7d') :
    ∀ ch ∈ entryInner s, ch ≠ '\x7b' ∧ ch ≠ '\x7d' := by
  obtain ⟨t, c⟩ := s
  intro ch hch
  have l1 : ("\"trigger\":\"").toList
      = ['"', 't', 'r', 'i', 'g', 'g', 'e', 'r', '"', ':', '"'] := rfl
  have l2 : ("\",\"content\":\"").toList
      = ['"', ',', '"', 'c', 'o', 'n', 't', 'e', 'n', 't', '"', ':', '"'] := rfl
  unfold entryInner at hch
  rw [l1, l2] at hch
  simp only [List.mem_append, List.mem_cons, List.mem_singleton,
    List.not_mem_nil, or_false] at hch
  rcases hch with ((((hm | hm) | hm) | hm) | hm)
  · rcases hm with rfl | rfl | rfl | rfl | rfl | rfl | rfl | rfl | rfl | rfl | rfl <;>
      exact ⟨by decide, by decide⟩
  · exact braceFree_escQ t ht ch hm
  · rcases hm with rfl | rfl | rfl | rfl | rfl | rfl | rfl | rfl | rfl | rfl | rfl | rfl | rfl <;>
      exact ⟨by decide, by decide⟩
  · exact braceFree_escQN c hc ch hm
  · rw [hm]
    exact ⟨by decide, by decide⟩

theorem braceScan_skip (inner : List Char) :
    (∀ ch ∈ inner, ch ≠ '\x7b' ∧ ch ≠ '\x7d') →
    ∀ (rest : List Char) (i : Nat) (os : Option Nat),
    braceScan (inner ++ rest) i 1 os = braceScan rest (i + inner.length) 1 os := by
  induction inner with
  | nil =>
    intro _ rest i os
    simp
  | cons ch cs ih =>
    intro h rest i os
    have h1 := h ch (by simp)
    show braceScan (ch :: (cs ++ rest)) i 1 os = _
    simp only [braceScan, if_neg h1.1, if_neg h1.2]
    rw [ih (fun d hd => h d (by simp [hd])) rest (i + 1) os]
    simp only [List.length_cons]
    rw [show i + 1 + cs.length = i + (cs.length + 1) from by omega]

theorem braceScan_obj (inner : List Char)
    (hfree : ∀ ch ∈ inner, ch ≠ '\x7b' ∧ ch ≠ '\x7d')
    (rest : List Char) (i : Nat) (os : Option Nat) :
    braceScan ('\x7b' :: (inner ++ ('\x7d' :: rest))) i 0 os =
      (i, i + inner.length + 1) :: braceScan rest (i + inner.length + 2) 0 (some i) := by
  simp only [braceScan, reduceIte]
  rw [show ((0 : Int) + 1) = 1 from rfl]
  rw [braceScan_skip inner hfree ('\x7d' :: rest) (i + 1) (some i)]
  simp only [braceScan, reduceIte]
  rw [show ((1 : Int) - 1) = 0 from rfl]
  rw [show i + 1 + inner.length = i + inner.length + 1 from by omega]
  rw [show i + inner.length + 1 + 1 = i + inner.length + 2 from by omega]
  rw [if_neg (show ¬('\x7d' = '\x7b') from by decide), if_pos rfl]

theorem braceScan_comma (rest : List Char) (i : Nat) (os : Option Nat) :
    braceScan (',' :: rest) i 0 os = braceScan rest (i + 1) 0 os := by
  simp only [braceScan, reduceIte]
  rw [if_neg (show ¬(',' = '\x7b') from by decide),
    if_neg (show ¬(',' = '\x7d') from by decide)]

theorem joinComma_cons₂ (a b : List Char) (l : List (List Char)) :
    joinComma (a :: b :: l) = a ++ ',' :: joinComma (b :: l) := rfl

theorem parse_entries (store : List VoiceSnippet) :
    (∀ s ∈ store, (∀ ch ∈ s.trigger, ch ≠ '\\' ∧ ch ≠ '\x7b' ∧ ch ≠ '\x7d') ∧
        (∀ ch ∈ s.content, ch ≠ '\\' ∧ ch ≠ '\x7b' ∧ ch ≠ '\x7d')) →
    ∀ (pre : List Char) (os : Option Nat),
    (braceScan (joinComma (store.map entryJson)) pre.length 0 os).filterMap
      (fun p => parseObjSnippet
        (((pre ++ joinComma (store.map entryJson)).drop p.1).take (p.2 + 1 - p.1)))
      = store := by
  induction store with
  | nil =>
    intro _ pre os
    simp [joinComma, braceScan]
  | cons s rest ih =>
    intro h pre os
    have hs := h s (by simp)
    have hbt : ∀ ch ∈ s.trigger, ch ≠ '\\' := fun ch hch => (hs.1 ch hch).1
    have hbc : ∀ ch ∈ s.content, ch ≠ '\\' := fun ch hch => (hs.2 ch hch).1
    have hfree := entryInner_braceFree s
      (fun ch hch => ⟨(hs.1 ch hch).2.1, (hs.1 ch hch).2.2⟩)
      (fun ch hch => ⟨(hs.2 ch hch).2.1, (hs.2 ch hch).2.2⟩)
    cases rest with
    | nil =>
      simp only [List.map_cons, List.map_nil]
      rw [show joinComma [entryJson s] = entryJson s from rfl]
      rw [entryJson_eq_wrap s]
      rw [braceScan_obj (entryInner s) hfree [] pre.length os]
      rw [show braceScan ([] : List Char)
        (pre.length + (entryInner s).length + 2) 0 (some pre.length) = [] from rfl]
      simp only [List.filterMap_cons, List.filterMap_nil]
      rw [drop_len_append pre ('\x7b' :: (entryInner s ++ ['\x7d']))]
      have htake : ('\x7b' :: (entryInner s ++ ['\x7d'])).take
          (pre.length + (entryInner s).length + 1 + 1 - pre.length)
          = '\x7b' :: (entryInner s ++ ['\x7d']) := by
        rw [show pre.length + (entryInner s).length + 1 + 1 - pre.length
          = ('\x7b' :: (entryInner s ++ ['\x7d'])).length from by
            simp only [List.length_cons, List.length_append, List.length_nil]
            omega]
        exact List.take_length _
      rw [htake, ← entryJson_eq_wrap s, parseObjSnippet_entry s hbt hbc]
    | cons s2 rest2 =>
      simp only [List.map_cons]
      rw [joinComma_cons₂]
      rw [entry_wrap s (',' :: joinComma (entryJson s2 :: rest2.map entryJson))]
      rw [braceScan_obj (entryInner s) hfree _ pre.length os]
      rw [braceScan_comma]
      simp only [List.filterMap_cons]
      have hsplit : ('\x7b' :: (entryInner s ++
          ('\x7d' :: (',' :: joinComma (entryJson s2 :: rest2.map entryJson)))))
          = ('\x7b' :: (entryInner s ++ ['\x7d'])) ++
            (',' :: joinComma (entryJson s2 :: rest2.map entryJson)) := by
        simp
      rw [hsplit]
      rw [show (pre ++ (('\x7b' :: (entryInner s ++ ['\x7d'])) ++
          (',' :: joinComma (entryJson s2 :: rest2.map entryJson))))
          = (pre ++ ('\x7b' :: (entryInner s ++ ['\x7d']))) ++
            (',' :: joinComma (entryJson s2 :: rest2.map entryJson)) from by simp]
      have hdrop1 : ((pre ++ ('\x7b' :: (entryInner s ++ ['\x7d']))) ++
          (',' :: joinComma (entryJson s2 :: rest2.map entryJson))).drop pre.length
          = ('\x7b' :: (entryInner s ++ ['\x7d'])) ++
            (',' :: joinComma (entryJson s2 :: rest2.map entryJson)) := by
        rw [List.append_assoc, drop_len_append]
      rw [hdrop1]
      have htake1 : (('\x7b' :: (entryInner s ++ ['\x7d'])) ++
          (',' :: joinComma (entryJson s2 :: rest2.map entryJson))).take
          (pre.length + (entryInner s).length + 1 + 1 - pre.length)
          = '\x7b' :: (entryInner s ++ ['\x7d']) := by
        rw [show pre.length + (entryInner s).length + 1 + 1 - pre.length
          = ('\x7b' :: (entryInner s ++ ['\x7d'])).length from by
            simp only [List.length_cons, List.length_append, List.length_nil]
            omega]
        exact take_len_append _ _
      rw [htake1, ← entryJson_eq_wrap s, parseObjSnippet_entry s hbt hbc]
      have hrest := ih (fun x hx => h x (by simp [hx]))
        (pre ++ entryJson s ++ [',']) (some pre.length)
      have hidx : (pre ++ entryJson s ++ [',']).length
          = pre.length + (entryInner s).length + 2 + 1 := by
        simp only [List.length_append, List.length_cons, List.length_nil,
          entryInner_length s]
        omega
      have harr : (pre ++ entryJson s ++ [',']) ++
          joinComma ((s2 :: rest2).map entryJson)
          = (pre ++ ('\x7b' :: (entryInner s ++ ['\x7d']))) ++
            (',' :: joinComma (entryJson s2 :: rest2.map entryJson)) := by
        simp [entryJson_eq_wrap s]
      rw [hidx, harr, List.map_cons] at hrest
      rw [← entryJson_eq_wrap s] at hrest
      show s :: _ = s :: s2 :: rest2
      rw [hrest]

theorem rfindChar_last_two (c other : Char) (h : other ≠ c) (X : List Char) :
    rfindChar c (X ++ [c, other]) = some X.length := by
  unfold rfindChar
  rw [show (X ++ [c, other]).reverse = other :: c :: X.reverse from by simp]
  rw [findSub_cons_not _ _ _ (isPrefixOf_cons_ne c other _ _ (Ne.symm h))]
  rw [findSub_cons_yes _ _ _ (by simp [List.isPrefixOf])]
  simp only [Option.map_some', List.length_append, List.length_cons, List.length_nil]
  rw [show X.length + (0 + 1 + 1) - 1 - (0 + 1) = X.length from by omega]

/-- C10: serializing any snippet store whose triggers and contents contain
no backslash and no brace characters with `get_snippets`, then parsing the
resulting JSON text with the hand-rolled logic of `load_snippets`
(first-`[` / last-`]` bracketing, brace-depth object splitting,
`extract_json_string` field extraction), recovers exactly the same ordered
list of snippets. -/
theorem C10_snippet_roundtrip (store : List VoiceSnippet)
    (h : ∀ s ∈ store, (∀ ch ∈ s.trigger, ch ≠ '\\' ∧ ch ≠ '\x7b' ∧ ch ≠ '\x7d') ∧
        (∀ ch ∈ s.content, ch ≠ '\\' ∧ ch ≠ '\x7b' ∧ ch ≠ '\x7d')) :
    load_snippets_parse (get_snippets store) = store := by
  have hg : get_snippets store =
      '\x7b' :: '"' :: 's' :: 'n' :: 'i' :: 'p' :: 'p' :: 'e' :: 't' :: 's' :: '"' :: ':'
        :: '[' :: (joinComma (store.map entryJson) ++ [']', '\x7d']) := by
    show ("\x7b\"snippets\":[").toList ++ joinComma (store.map entryJson)
        ++ ("]\x7d").toList = _
    have l4 : ("\x7b\"snippets\":[").toList
        = ['\x7b', '"', 's', 'n', 'i', 'p', 'p', 'e', 't', 's', '"', ':', '['] := rfl
    have l5 : ("]\x7d").toList = [']', '\x7d'] := rfl
    rw [l4, l5]
    simp [List.append_assoc]
  rw [hg]
  have h1 : findSub ['[']
      ('\x7b' :: '"' :: 's' :: 'n' :: 'i' :: 'p' :: 'p' :: 'e' :: 't' :: 's' :: '"' :: ':'
        :: '[' :: (joinComma (store.map entryJson) ++ [']', '\x7d'])) = some 12 := by
    rw [findSub_cons_not _ _ _ (isPrefixOf_cons_ne '[' '\x7b' _ _ (by decide))]
    rw [findSub_cons_not _ _ _ (isPrefixOf_cons_ne '[' '"' _ _ (by decide))]
    rw [findSub_cons_not _ _ _ (isPrefixOf_cons_ne '[' 's' _ _ (by decide))]
    rw [findSub_cons_not _ _ _ (isPrefixOf_cons_ne '[' 'n' _ _ (by decide))]
    rw [findSub_cons_not _ _ _ (isPrefixOf_cons_ne '[' 'i' _ _ (by decide))]
    rw [findSub_cons_not _ _ _ (isPrefixOf_cons_ne '[' 'p' _ _ (by decide))]
    rw [findSub_cons_not _ _ _ (isPrefixOf_cons_ne '[' 'p' _ _ (by decide))]
    rw [findSub_cons_not _ _ _ (isPrefixOf_cons_ne '[' 'e' _ _ (by decide))]
    rw [findSub_cons_not _ _ _ (isPrefixOf_cons_ne '[' 't' _ _ (by decide))]
    rw [findSub_cons_not _ _ _ (isPrefixOf_cons_ne '[' 's' _ _ (by decide))]
    rw [findSub_cons_not _ _ _ (isPrefixOf_cons_ne '[' '"' _ _ (by decide))]
    rw [findSub_cons_not _ _ _ (isPrefixOf_cons_ne '[' ':' _ _ (by decide))]
    rw [findSub_cons_yes _ _ _ (by simp [List.isPrefixOf])]
    rfl
  have hchain :
      ('\x7b' :: '"' :: 's' :: 'n' :: 'i' :: 'p' :: 'p' :: 'e' :: 't' :: 's' :: '"' :: ':'
        :: '[' :: (joinComma (store.map entryJson) ++ [']', '\x7d'])) =
      ('\x7b' :: '"' :: 's' :: 'n' :: 'i' :: 'p' :: 'p' :: 'e' :: 't' :: 's' :: '"' :: ':'
        :: '[' :: joinComma (store.map entryJson)) ++ [']', '\x7d'] := by
    simp
  have h2 : rfindChar ']'
      ('\x7b' :: '"' :: 's' :: 'n' :: 'i' :: 'p' :: 'p' :: 'e' :: 't' :: 's' :: '"' :: ':'
        :: '[' :: (joinComma (store.map entryJson) ++ [']', '\x7d']))
      = some ((joinComma (store.map entryJson)).length + 13) := by
    rw [hchain, rfindChar_last_two ']' '\x7d' (by decide)]
    simp only [List.length_cons, Option.some.injEq]
  simp only [load_snippets_parse, h1, h2]
  have hd13 : List.drop (12 + 1)
      ('\x7b' :: '"' :: 's' :: 'n' :: 'i' :: 'p' :: 'p' :: 'e' :: 't' :: 's' :: '"' :: ':'
        :: '[' :: (joinComma (store.map entryJson) ++ [']', '\x7d']))
      = joinComma (store.map entryJson) ++ [']', '\x7d'] := rfl
  rw [hd13]
  rw [show (joinComma (store.map entryJson)).length + 13 - (12 + 1)
    = (joinComma (store.map entryJson)).length from by omega]
  rw [take_len_append]
  have := parse_entries store h [] none
  simpa using this

theorem C10_witness :
    (∀ s ∈ ([⟨"insert bio".toList, "I am a dev.\nLine two \"quoted\"".toList⟩,
        ⟨"sig".toList, "Best regards, A.".toList⟩] : List VoiceSnippet),
      (∀ ch ∈ s.trigger, ch ≠ '\\' ∧ ch ≠ '\x7b' ∧ ch ≠ '\x7d') ∧
      (∀ ch ∈ s.content, ch ≠ '\\' ∧ ch ≠ '\x7b' ∧ ch ≠ '\x7d')) ∧
    load_snippets_parse (get_snippets
        [⟨"insert bio".toList, "I am a dev.\nLine two \"quoted\"".toList⟩,
         ⟨"sig".toList, "Best regards, A.".toList⟩])
      = [⟨"insert bio".toList, "I am a dev.\nLine two \"quoted\"".toList⟩,
         ⟨"sig".toList, "Best regards, A.".toList⟩] :=
  ⟨by decide, C10_snippet_roundtrip _ (by decide)⟩

end Fair9
